import Mathlib

/-!
# Verification of the wasm guest shim (`src/pre_hf/src/lib.rs`)

A shallow embedding of the guest-side runtime shim: the buffer ownership
manager (`allocate` / `deallocate`), the string marshaling layer
(`string_to_ptr` / `ptr_to_string`) and the host call adapter (`log`).

Machine integers are modelled as `Nat` with explicit `% 2^32` where the
source performs an `as u32` cast.  Linear memory is a total byte map
`Nat → Nat`.  The global allocator (`wee_alloc`, an external crate whose
internals are not part of this repository) is modelled from the spec as a
bump allocator with an exact-fit free list, tracking the multiset of
currently owned regions; the spec (§4.1) states that any allocator
strategy satisfying the allocate/deallocate contract is conformant.

The exported `allocate` is embedded with the source's actual behavior:
`vec.into_boxed_slice()` on the still-length-0 vector shrinks the
capacity away, so the export deallocates its own buffer before
returning and yields the dangling pointer for every size — unlike the
internal global-allocator path `String::from` uses, which does keep its
allocation.
-/

namespace Shim

/-- 2^32, the modulus of the `u32` boundary type. -/
def U32 : Nat := 4294967296

/- ### Buffer Ownership Manager -/

/-- Modelled from the spec: state of the global allocator (`wee_alloc`
internals are not under `src/`).  `next` is the bump frontier (addresses
`≥ next` were never handed out), `free` the exact-fit free list, `owned`
the currently live regions, each as an `(offset, size)` pair.  The
frontier starts at 1 so that no returned offset is null. -/
structure AllocState where
  next : Nat
  free : List (Nat × Nat)
  owned : List (Nat × Nat)
  deriving DecidableEq, Repr

/-- The allocator state before any allocation. -/
def AllocState.init : AllocState := ⟨1, [], []⟩

/-- Modelled from the spec: the raw allocation path used by
`Vec::with_capacity(size)` for `size > 0` bytes.  Reuses an exact-fit
free block when one exists, otherwise bumps the frontier.  Allocation
never fails (linear memory is growable; out-of-memory aborts the guest
and is outside the model). -/
def allocRaw (st : AllocState) (size : Nat) : Nat × AllocState :=
  match st.free.find? (fun b => b.2 == size) with
  | some b => (b.1, ⟨st.next, st.free.erase b, (b.1, size) :: st.owned⟩)
  | none => (st.next, ⟨st.next + size, st.free, (st.next, size) :: st.owned⟩)

/-- Modelled from the spec: the raw deallocation path, returning a live
region to the free list. -/
def deallocRaw (st : AllocState) (ptr size : Nat) : AllocState :=
  ⟨st.next, (ptr, size) :: st.free, st.owned.erase (ptr, size)⟩

/-- `allocate` from `src/pre_hf/src/lib.rs` lines 70–76:
`Vec::with_capacity(size)` reserves `size` bytes through the global
allocator, but the vector still has length 0, so `into_boxed_slice()`
(which drops any excess capacity) deallocates the entire buffer again,
and `Box::into_raw` on the resulting empty boxed slice returns
`NonNull::dangling()`, which for `u8` is the alignment value `1`.  For
`size = 0` no heap allocation happens at all.  So for every size the
export frees its own buffer before returning, transfers no region, and
hands back the dangling offset 1 — contradicting its own doc comment
("into_raw leaks the memory to the caller"). -/
def allocate (st : AllocState) (size : Nat) : Nat × AllocState :=
  if size = 0 then (1, st)
  else
    let pa := allocRaw st size
    (1, deallocRaw pa.2 pa.1 size)

/-- Modelled from the spec: an allocation taken directly through the
global allocator (`wee_alloc`), as performed internally by
`String::from` / `Vec`: no heap allocation for zero bytes (the pointer
is `NonNull::dangling()` = 1 for `u8`), otherwise `allocRaw`.  The
allocation is kept, unlike the broken exported `allocate`. -/
def globalAlloc (st : AllocState) (size : Nat) : Nat × AllocState :=
  if size = 0 then (1, st) else allocRaw st size

/-- `deallocate` from `src/pre_hf/src/lib.rs` lines 87–89:
`Vec::from_raw_parts(ptr, 0, size)` is built and dropped, freeing the
`size`-byte capacity through the global allocator.  For `size = 0` the
vector has no heap allocation and dropping it calls no deallocation. -/
def deallocate (st : AllocState) (ptr size : Nat) : AllocState :=
  if size = 0 then st else deallocRaw st ptr size

/-- Two `(offset, size)` regions are disjoint: one ends at or before the
other begins. -/
def Disj (a b : Nat × Nat) : Prop := a.1 + a.2 ≤ b.1 ∨ b.1 + b.2 ≤ a.1

instance (a b : Nat × Nat) : Decidable (Disj a b) := by
  unfold Disj; infer_instance

/-- Well-formedness of an allocator state: the frontier is past the null
address, every tracked block is non-null, nonempty and below the
frontier, and all tracked blocks (owned and free alike) are pairwise
disjoint. -/
structure WF (st : AllocState) : Prop where
  next_pos : 1 ≤ st.next
  blocks : ∀ b ∈ st.owned ++ st.free, 1 ≤ b.1 ∧ 0 < b.2 ∧ b.1 + b.2 ≤ st.next
  disj : (st.owned ++ st.free).Pairwise Disj

/- ### Linear memory -/

/-- Read `len` bytes of linear memory starting at `p`. -/
def readBytes (m : Nat → Nat) (p len : Nat) : List Nat :=
  (List.range len).map (fun i => m (p + i))

/-- Overwrite the `bs.length` bytes starting at `p` with `bs`. -/
def writeBytes (m : Nat → Nat) (p : Nat) (bs : List Nat) : Nat → Nat :=
  fun a => if p ≤ a ∧ a < p + bs.length then bs.getD (a - p) 0 else m a

/- ### String marshaling layer -/

/-- A Rust `String` value: the address of its heap buffer and the byte
content of that buffer (always valid UTF-8 by Rust's invariant). -/
structure RString where
  ptr : Nat
  bytes : List Nat
  deriving DecidableEq, Repr

/-- `b` is a UTF-8 continuation byte (`0x80..=0xBF`). -/
def utf8Cont (b : Nat) : Bool := 128 ≤ b && b ≤ 191

/-- UTF-8 validity of a byte sequence (RFC 3629 table: no overlongs, no
surrogates, max U+10FFFF), the invariant Rust maintains for `String` and
the precondition `from_utf8_unchecked_mut` leaves unvalidated. -/
def utf8Valid : List Nat → Bool
  | [] => true
  | b :: rest =>
    if b ≤ 127 then utf8Valid rest
    else if 194 ≤ b && b ≤ 223 then
      match rest with
      | c1 :: r => utf8Cont c1 && utf8Valid r
      | [] => false
    else if b = 224 then
      match rest with
      | c1 :: c2 :: r => (160 ≤ c1 && c1 ≤ 191) && utf8Cont c2 && utf8Valid r
      | _ => false
    else if 225 ≤ b && b ≤ 236 then
      match rest with
      | c1 :: c2 :: r => utf8Cont c1 && utf8Cont c2 && utf8Valid r
      | _ => false
    else if b = 237 then
      match rest with
      | c1 :: c2 :: r => (128 ≤ c1 && c1 ≤ 159) && utf8Cont c2 && utf8Valid r
      | _ => false
    else if 238 ≤ b && b ≤ 239 then
      match rest with
      | c1 :: c2 :: r => utf8Cont c1 && utf8Cont c2 && utf8Valid r
      | _ => false
    else if b = 240 then
      match rest with
      | c1 :: c2 :: c3 :: r =>
        (144 ≤ c1 && c1 ≤ 191) && utf8Cont c2 && utf8Cont c3 && utf8Valid r
      | _ => false
    else if 241 ≤ b && b ≤ 243 then
      match rest with
      | c1 :: c2 :: c3 :: r => utf8Cont c1 && utf8Cont c2 && utf8Cont c3 && utf8Valid r
      | _ => false
    else if b = 244 then
      match rest with
      | c1 :: c2 :: c3 :: r =>
        (128 ≤ c1 && c1 ≤ 143) && utf8Cont c2 && utf8Cont c3 && utf8Valid r
      | _ => false
    else false

/-- `string_to_ptr` from `src/pre_hf/src/lib.rs` lines 37–39:
`(s.as_ptr() as u32, s.len() as u32)`.  A pure function of the borrowed
string: it touches no state, allocates nothing and copies nothing. -/
def string_to_ptr (s : RString) : Nat × Nat :=
  (s.ptr % U32, s.bytes.length % U32)

/- ### The guest world -/

/-- The observable state the embedded operations act on: the allocator,
linear memory, and the trace of `(ptr, len)` pairs received by the
host's `log` import (which is declared but not defined in `src/`; per
the spec §6 the host reads the bytes and neither frees nor mutates
them, so its only modelled effect is this trace). -/
structure World where
  alloc : AllocState
  mem : Nat → Nat
  hostLog : List (Nat × Nat)

/-- `ptr_to_string` from `src/pre_hf/src/lib.rs` lines 43–47:
`slice::from_raw_parts_mut(ptr, len)` views the `len` bytes at `ptr`,
`from_utf8_unchecked_mut` reinterprets them without validation, and
`String::from(utf8)` allocates a fresh `len`-byte buffer directly
through the global allocator (`globalAlloc`, not the broken export) and
copies the bytes into it. -/
def ptr_to_string (w : World) (ptr len : Nat) : RString × World :=
  let bs := readBytes w.mem ptr len
  let pa := globalAlloc w.alloc bs.length
  (⟨pa.1, bs⟩,
   ⟨pa.2, writeBytes w.mem pa.1 bs, w.hostLog⟩)

/-- `log` from `src/pre_hf/src/lib.rs` lines 22–27: converts the borrowed
string with `string_to_ptr` and invokes the host import `_log` once with
the resulting pair.  The host import is modelled from the spec (§6): it
reads the bytes and returns, leaving guest memory and the allocator
untouched; the received pair is appended to the trace. -/
def log (s : RString) (w : World) : World :=
  ⟨w.alloc, w.mem, w.hostLog ++ [string_to_ptr s]⟩

/- ### Concrete states for evaluation -/

/-- The byte content of `"hello"`. -/
def helloBytes : List Nat := [104, 101, 108, 108, 111]

/-- A `String` holding `"hello"` with its buffer at address 100. -/
def helloStr : RString := ⟨100, helloBytes⟩

/-- A linear memory holding the bytes of `"hello"` at address 100. -/
def helloMem : Nat → Nat := fun a => helloBytes.getD (a - 100) 0

/-- A world whose memory holds `"hello"` at address 100. -/
def helloWorld : World := ⟨AllocState.init, helloMem, []⟩

/-- An allocator state owning the single 5-byte region at offset 1. -/
def ownedFive : AllocState := ⟨6, [], [(1, 5)]⟩

/-- A world owning a 5-byte buffer at offset 1 that holds `"hello"`. -/
def ownedFiveWorld : World := ⟨ownedFive, fun a => helloBytes.getD (a - 1) 0, []⟩

/- ### Linear-memory lemmas -/

theorem readBytes_length (m : Nat → Nat) (p len : Nat) :
    (readBytes m p len).length = len := by
  simp [readBytes]

theorem readBytes_writeBytes_self (m : Nat → Nat) (p : Nat) (bs : List Nat) :
    readBytes (writeBytes m p bs) p bs.length = bs := by
  apply List.ext_getElem
  · simp [readBytes]
  · intro i h1 h2
    simp only [readBytes, List.getElem_map, List.getElem_range, writeBytes]
    rw [if_pos ⟨Nat.le_add_right _ _, by omega⟩, Nat.add_sub_cancel_left]
    exact List.getD_eq_getElem bs 0 h2

theorem readBytes_writeBytes_disjoint (m : Nat → Nat) (p q len : Nat) (bs : List Nat)
    (h : q + len ≤ p ∨ p + bs.length ≤ q) :
    readBytes (writeBytes m p bs) q len = readBytes m q len := by
  unfold readBytes
  apply List.map_congr_left
  intro i hi
  rw [List.mem_range] at hi
  unfold writeBytes
  rw [if_neg]
  omega

/- ### Allocator lemmas -/

theorem disj_symm {a b : Nat × Nat} (h : Disj a b) : Disj b a := h.symm

theorem perm_cons_erase_of_mem {α : Type} [BEq α] [LawfulBEq α] {a : α}
    {l : List α} (h : a ∈ l) : List.Perm l (a :: l.erase a) := by
  induction l with
  | nil => cases h
  | cons b t ih =>
    by_cases hba : b = a
    · subst hba
      rw [List.erase_cons_head]
    · rw [List.erase_cons_tail (by simp [hba])]
      rcases List.mem_cons.mp h with h' | h'
      · exact absurd h'.symm hba
      · exact (List.Perm.cons b (ih h')).trans (List.Perm.swap a b _)

theorem allocRaw_cases (st : AllocState) (n : Nat) :
    (∃ b1, (b1, n) ∈ st.free ∧
      allocRaw st n = (b1, ⟨st.next, st.free.erase (b1, n), (b1, n) :: st.owned⟩)) ∨
    (st.free.find? (fun b => b.2 == n) = none ∧
      allocRaw st n = (st.next, ⟨st.next + n, st.free, (st.next, n) :: st.owned⟩)) := by
  cases h : st.free.find? (fun b => b.2 == n) with
  | none => exact Or.inr ⟨rfl, by simp [allocRaw, h]⟩
  | some b =>
    obtain ⟨b1, b2⟩ := b
    have hmem := List.mem_of_find?_eq_some h
    have hsz : b2 = n := by simpa using List.find?_some h
    subst hsz
    exact Or.inl ⟨b1, hmem, by simp [allocRaw, h]⟩

theorem globalAlloc_pos_spec (st : AllocState) (n : Nat) (hn : 0 < n) (hwf : WF st) :
    WF (globalAlloc st n).2 ∧
    1 ≤ (globalAlloc st n).1 ∧
    (globalAlloc st n).2.owned = ((globalAlloc st n).1, n) :: st.owned ∧
    (globalAlloc st n).1 + n ≤ (globalAlloc st n).2.next ∧
    ∀ b ∈ st.owned, Disj ((globalAlloc st n).1, n) b := by
  have hne : n ≠ 0 := Nat.pos_iff_ne_zero.mp hn
  simp only [globalAlloc, if_neg hne]
  rcases allocRaw_cases st n with ⟨b1, hmem, heq⟩ | ⟨_, heq⟩ <;> rw [heq] <;> dsimp only
  · have hb := hwf.blocks (b1, n) (List.mem_append_right _ hmem)
    refine ⟨?_, hb.1, rfl, hb.2.2, ?_⟩
    · have h1 : List.Perm st.free ((b1, n) :: st.free.erase (b1, n)) :=
        perm_cons_erase_of_mem hmem
      have h2 := List.Perm.append_left st.owned h1
      have h3 : List.Perm (st.owned ++ ((b1, n) :: st.free.erase (b1, n)))
          ((b1, n) :: (st.owned ++ st.free.erase (b1, n))) := List.perm_middle
      have hperm := h2.trans h3
      refine ⟨hwf.next_pos, ?_, ?_⟩
      · intro b hb'
        rcases List.mem_append.mp hb' with h | h
        · rcases List.mem_cons.mp h with h | h
          · subst h; exact hb
          · exact hwf.blocks b (List.mem_append_left _ h)
        · exact hwf.blocks b (List.mem_append_right _ (List.mem_of_mem_erase h))
      · exact (hperm.pairwise_iff disj_symm).mp hwf.disj
    · intro c hc
      exact disj_symm
        ((List.pairwise_append.mp hwf.disj).2.2 c hc (b1, n) hmem)
  · refine ⟨?_, hwf.next_pos, rfl, le_refl _, ?_⟩
    · refine ⟨le_trans hwf.next_pos (Nat.le_add_right _ n), ?_, ?_⟩
      · intro b hb'
        rcases List.mem_cons.mp hb' with h | h
        · subst h
          exact ⟨hwf.next_pos, hn, le_refl _⟩
        · have := hwf.blocks b h
          refine ⟨this.1, this.2.1, ?_⟩
          dsimp only
          omega
      · exact List.pairwise_cons.mpr
          ⟨fun c hc => Or.inr (hwf.blocks c hc).2.2, hwf.disj⟩
    · intro c hc
      exact Or.inr (hwf.blocks c (List.mem_append_left _ hc)).2.2

/- ### The claims -/

/-- Claim C1: for every valid UTF-8 string resident in linear memory,
encoding it with `string_to_ptr` and decoding the resulting
`(offset, length)` pair with `ptr_to_string` yields a string whose byte
content equals the original. -/
theorem string_roundtrip (s : RString) (w : World)
    (_hv : utf8Valid s.bytes = true)
    (hp : s.ptr < U32) (hl : s.bytes.length < U32)
    (hm : readBytes w.mem s.ptr s.bytes.length = s.bytes) :
    ((ptr_to_string w (string_to_ptr s).1 (string_to_ptr s).2).1).bytes
      = s.bytes := by
  have h1 : ((ptr_to_string w (string_to_ptr s).1 (string_to_ptr s).2).1).bytes
      = readBytes w.mem (s.ptr % U32) (s.bytes.length % U32) := rfl
  rw [h1, Nat.mod_eq_of_lt hp, Nat.mod_eq_of_lt hl]
  exact hm

theorem string_roundtrip_witness :
    utf8Valid helloStr.bytes = true ∧
    helloStr.ptr < U32 ∧ helloStr.bytes.length < U32 ∧
    readBytes helloWorld.mem helloStr.ptr helloStr.bytes.length = helloStr.bytes ∧
    ((ptr_to_string helloWorld (string_to_ptr helloStr).1
        (string_to_ptr helloStr).2).1).bytes = helloStr.bytes :=
  ⟨by decide, by decide, by decide, by decide,
    string_roundtrip helloStr helloWorld (by decide) (by decide) (by decide)
      (by decide)⟩

/-- Claim C5: `string_to_ptr` returns exactly the pair (address of the
string's existing backing bytes, byte length of the string).  It is a
pure function of the borrowed string — in this embedding it neither
receives nor produces a `World`, so it performs no allocation, copies no
bytes and takes no ownership. -/
theorem string_to_ptr_spec (s : RString)
    (hp : s.ptr < U32) (hl : s.bytes.length < U32) :
    string_to_ptr s = (s.ptr, s.bytes.length) := by
  simp [string_to_ptr, Nat.mod_eq_of_lt hp, Nat.mod_eq_of_lt hl]

theorem string_to_ptr_spec_witness :
    helloStr.ptr < U32 ∧ helloStr.bytes.length < U32 ∧
    string_to_ptr helloStr = (helloStr.ptr, helloStr.bytes.length) :=
  ⟨by decide, by decide, string_to_ptr_spec helloStr (by decide) (by decide)⟩

/-- Claim C6: for a readable region `(ptr, len)` whose bytes are valid
UTF-8, `ptr_to_string` returns a native string whose byte content equals
those `len` bytes, and the freshly written heap copy backing it holds
exactly the same bytes. -/
theorem ptr_to_string_reads_bytes (w : World) (ptr len : Nat)
    (_hv : utf8Valid (readBytes w.mem ptr len) = true) :
    (ptr_to_string w ptr len).1.bytes = readBytes w.mem ptr len ∧
    readBytes (ptr_to_string w ptr len).2.mem (ptr_to_string w ptr len).1.ptr len
      = readBytes w.mem ptr len := by
  refine ⟨rfl, ?_⟩
  have h2 : (ptr_to_string w ptr len).2.mem
      = writeBytes w.mem
          (globalAlloc w.alloc (readBytes w.mem ptr len).length).1
          (readBytes w.mem ptr len) := rfl
  have h3 : (ptr_to_string w ptr len).1.ptr
      = (globalAlloc w.alloc (readBytes w.mem ptr len).length).1 := rfl
  rw [h2, h3]
  generalize hbs : readBytes w.mem ptr len = bs
  have hlen : bs.length = len := by
    rw [← hbs]
    exact readBytes_length _ _ _
  rw [← hlen]
  exact readBytes_writeBytes_self _ _ _

theorem ptr_to_string_reads_bytes_witness :
    utf8Valid (readBytes helloWorld.mem 100 5) = true ∧
    (ptr_to_string helloWorld 100 5).1.bytes = readBytes helloWorld.mem 100 5 :=
  ⟨by decide, (ptr_to_string_reads_bytes helloWorld 100 5 (by decide)).1⟩

/-- Claim C7: `log message` invokes the host-provided `log` import
exactly once, passing exactly the `(offset, length)` pair that
`string_to_ptr` produces for `message`: the host's call trace is
extended by that single pair and nothing else. -/
theorem log_invokes_host_once (s : RString) (w : World)
    (hp : s.ptr < U32) (hl : s.bytes.length < U32) :
    (log s w).hostLog = w.hostLog ++ [(s.ptr, s.bytes.length)] := by
  simp [log, string_to_ptr, Nat.mod_eq_of_lt hp, Nat.mod_eq_of_lt hl]

theorem log_invokes_host_once_witness :
    helloStr.ptr < U32 ∧ helloStr.bytes.length < U32 ∧
    (log helloStr helloWorld).hostLog = [(100, 5)] :=
  ⟨by decide, by decide,
    log_invokes_host_once helloStr helloWorld (by decide) (by decide)⟩

/-- Claim C8: `log s` mutates neither linear memory nor the allocator
(the modelled host honors the borrowing convention of the spec), so the
backing bytes of `s` are unchanged and `s` is still resident and valid
immediately after the call returns. -/
theorem log_preserves_string (s : RString) (w : World)
    (hm : readBytes w.mem s.ptr s.bytes.length = s.bytes) :
    (log s w).mem = w.mem ∧ (log s w).alloc = w.alloc ∧
    readBytes (log s w).mem s.ptr s.bytes.length = s.bytes :=
  ⟨rfl, rfl, hm⟩

theorem log_preserves_string_witness :
    readBytes helloWorld.mem helloStr.ptr helloStr.bytes.length = helloStr.bytes ∧
    readBytes (log helloStr helloWorld).mem helloStr.ptr helloStr.bytes.length
      = helloStr.bytes :=
  ⟨by decide, (log_preserves_string helloStr helloWorld (by decide)).2.2⟩

/-- Claim C2 is a code bug: the export's own doc comment promises an
ownership transfer, but `into_boxed_slice` on the length-0 vector frees
the freshly reserved buffer before `allocate` returns.  At the failing
input `size = 5` (from the initial state) the 5 bytes end on the free
list with nothing owned, and for every state and size the returned
offset is the dangling pointer 1, never the offset of a live region. -/
theorem allocate_returns_dangling :
    allocate AllocState.init 5 = (1, ⟨6, [(1, 5)], []⟩) ∧
    (allocate AllocState.init 5).2.owned = [] ∧
    ∀ (st : AllocState) (size : Nat), (allocate st size).1 = 1 := by
  refine ⟨by decide, by decide, ?_⟩
  intro st size
  by_cases h : size = 0 <;> simp [allocate, h]

/-- Claim C3 is a code bug: after `allocate n` the caller holds only the
dangling pointer 1 and owns no region, so the "matching"
`deallocate (1, n)` names memory the caller was never given — a
contract violation (it frees `n` bytes at the dangling address),
not a legal leak-free cycle.  Evaluated at the failing input `n = 5`:
the returned pointer is 1, `(1, 5)` is not owned, and performing the
deallocate anyway puts the block `(1, 5)` on the free list twice — a
double free, since a block is never disjoint from itself. -/
theorem alloc_dealloc_cycle_illegal :
    (allocate AllocState.init 5).1 = 1 ∧
    ((allocate AllocState.init 5).1, 5) ∉ (allocate AllocState.init 5).2.owned ∧
    deallocate (allocate AllocState.init 5).2 1 5
      = ⟨6, [(1, 5), (1, 5)], []⟩ ∧
    ¬ Disj (1, 5) (1, 5) := by
  decide

/-- Claim C4: `allocate 0` succeeds and returns the non-null dangling
offset 1 (the standard library performs no heap allocation for a
zero-capacity vector) while leaving the allocator untouched, and the
matching `deallocate (ptr, 0)` is a legal no-op that also leaves the
allocator state intact. -/
theorem allocate_zero_spec (st : AllocState) :
    allocate st 0 = (1, st) ∧ (allocate st 0).1 ≠ 0 ∧
    deallocate st (allocate st 0).1 0 = st :=
  ⟨rfl, Nat.one_ne_zero, rfl⟩

/-- Claim C9 is a code bug: the export owns nothing and returns the
dangling offset 1 on every call, so two simultaneously-held allocations
name the identical region.  Evaluated at the failing sequence
`allocate 5; allocate 5` with both handles held: both calls return
offset 1, no region is owned, and the two handles' regions are not
disjoint (they coincide). -/
theorem double_allocate_aliases :
    (allocate AllocState.init 5).1 = 1 ∧
    (allocate (allocate AllocState.init 5).2 5).1 = 1 ∧
    (allocate (allocate AllocState.init 5).2 5).2.owned = [] ∧
    ¬ Disj ((allocate AllocState.init 5).1, 5)
        ((allocate (allocate AllocState.init 5).2 5).1, 5) := by
  decide

/-- Claim C10: on a region contained in a caller-owned allocation,
`ptr_to_string` leaves the source bytes unchanged, the fresh copy
backing the returned string does not alias the source region, and the
copy still holds the original bytes after the source region is
overwritten with arbitrary new bytes. -/
theorem ptr_to_string_fresh_copy (w : World) (ptr len bp bl : Nat)
    (hwf : WF w.alloc) (hown : (bp, bl) ∈ w.alloc.owned)
    (hlo : bp ≤ ptr) (hhi : ptr + len ≤ bp + bl) :
    readBytes (ptr_to_string w ptr len).2.mem ptr len = readBytes w.mem ptr len ∧
    (0 < len → Disj ((ptr_to_string w ptr len).1.ptr, len) (ptr, len)) ∧
    ∀ cs : List Nat, cs.length ≤ len →
      readBytes (writeBytes (ptr_to_string w ptr len).2.mem ptr cs)
          (ptr_to_string w ptr len).1.ptr len
        = readBytes w.mem ptr len := by
  have h2 : (ptr_to_string w ptr len).2.mem
      = writeBytes w.mem
          (globalAlloc w.alloc (readBytes w.mem ptr len).length).1
          (readBytes w.mem ptr len) := rfl
  have h3 : (ptr_to_string w ptr len).1.ptr
      = (globalAlloc w.alloc (readBytes w.mem ptr len).length).1 := rfl
  rw [h2, h3]
  generalize hbs : readBytes w.mem ptr len = bs
  have hlen : bs.length = len := by
    rw [← hbs]
    exact readBytes_length _ _ _
  rcases Nat.eq_zero_or_pos len with hl0 | hl0
  · subst hl0
    have hcs0 : ∀ cs : List Nat, cs.length ≤ 0 → cs = [] := by
      intro cs h
      exact List.eq_nil_of_length_eq_zero (Nat.le_zero.mp h)
    refine ⟨?_, fun h => absurd h (by omega), ?_⟩
    · rw [← hbs]
      rfl
    · intro cs hcs
      rw [hcs0 cs hcs, ← hbs]
      rfl
  · have hpos : 0 < bs.length := by omega
    obtain ⟨_, _, _, _, hfresh⟩ := globalAlloc_pos_spec w.alloc bs.length hpos hwf
    have hdisj := hfresh (bp, bl) hown
    simp only [Disj] at hdisj
    refine ⟨?_, ?_, ?_⟩
    · calc readBytes (writeBytes w.mem (globalAlloc w.alloc bs.length).1 bs) ptr len
          = readBytes w.mem ptr len := by
            apply readBytes_writeBytes_disjoint
            omega
        _ = bs := hbs
    · intro _
      simp only [Disj]
      omega
    · intro cs hcs
      have hstep : readBytes
          (writeBytes (writeBytes w.mem
              (globalAlloc w.alloc bs.length).1 bs) ptr cs)
          (globalAlloc w.alloc bs.length).1 len
          = readBytes (writeBytes w.mem (globalAlloc w.alloc bs.length).1 bs)
              (globalAlloc w.alloc bs.length).1 len := by
        apply readBytes_writeBytes_disjoint
        omega
      rw [hstep, ← hlen]
      exact readBytes_writeBytes_self _ _ _

theorem ptr_to_string_fresh_copy_witness :
    WF ownedFiveWorld.alloc ∧ (1, 5) ∈ ownedFiveWorld.alloc.owned ∧
    readBytes (ptr_to_string ownedFiveWorld 1 5).2.mem 1 5
      = readBytes ownedFiveWorld.mem 1 5 :=
  ⟨⟨by decide, by decide, by decide⟩, by decide,
    (ptr_to_string_fresh_copy ownedFiveWorld 1 5 1 5
      ⟨by decide, by decide, by decide⟩ (by decide) (by decide) (by decide)).1⟩

end Shim
